import Mathlib

/-!
Formal model of the qkdxplore QKD protocol simulators.

This file gives a shallow embedding of the three protocol simulation engines of
the repository and proves/refutes the frozen claims about them:

- `src/qiskit/b92_protocol.py`   : the B92 simulator (states, USD measurement,
  per-signal pipeline, sifting, QBER and key-rate statistics);
- `src/qiskit/e91_protocol.py`   : the "accurate" E91 simulator (Bell state
  construction, depolarizing channel, basis-angle correlation model, CHSH
  S-value, sifting and QBER);
- `src/backend/e91_protocol.py`  : the basic E91 implementation served by
  /api/e91 (perfect anti-correlation, CHSH over four basis pairs);
- `src/backend/app.py`           : the simulated BB84 path of
  /api/bb84/simulate (optical noise, photon loss, sifting, QBER).

Modelling conventions:

- Python floats are embedded as exact rationals.  Every probability the source
  computes from the fixed B92 states and measurement operators, and every value
  of sin^2 of the E91 basis-angle differences, is an exact rational, so nothing
  is lost; a bridging lemma (`p_same_eq_sin_sq`) ties the rational correlation
  table to the transcendental expression the source evaluates in floating
  point.
- The ambient `np.random` stream is modelled by explicit draw families, one
  function per call site, indexed by the signal/pair index.  A value returned
  by `np.random.random()` always lies in [0, 1); the `...ValidDraws` predicates
  record exactly that.  Integer draws (`np.random.randint(2)`,
  `np.random.choice`) are modelled by `Fin`-valued families.
- Quantum state vectors of the B92 code are stored unnormalized with rational
  amplitudes (the source stores the same vectors normalized, with 1/sqrt 2
  factors); the Born rule therefore divides the quadratic form by the squared
  norm, which is exactly `np.vdot(state, M @ state)` of the source for its
  normalized vectors.
- Fallible code is embedded in `Except`: the Python `ZeroDivisionError` raised
  by `key_rate = len(conclusive_indices) / n_signals` at `n_signals = 0` is
  made explicit, since rational division by zero would silently return 0.
-/

/-! ## Shared statistical helpers (StatisticsReporter) -/

/-- Number of positions at which two sequences disagree: the source idiom
`sum(a != b for a, b in zip(xs, ys))` used by every QBER computation. -/
def mismatch_count {α : Type} [DecidableEq α] (xs ys : List α) : ℕ :=
  ((xs.zip ys).filter fun ab => decide (ab.1 ≠ ab.2)).length

/-- Mean of a list of integer (plus/minus one) products, 0 for the empty list:
the source idiom `np.mean(values) if values else 0` of both CHSH routines. -/
def correlation (l : List ℤ) : ℚ :=
  if l.length = 0 then 0 else (l.sum : ℚ) / (l.length : ℚ)

/-- The source encoding `1 if outcome == 0 else -1` of outcomes into the
plus/minus-one alphabet used by the CHSH correlators. -/
def pm (x : ℕ) : ℤ := if x = 0 then 1 else -1

/-- A value produced by `np.random.random()`: a draw in the interval [0, 1). -/
def IsDraw (x : ℚ) : Prop := 0 ≤ x ∧ x < 1

/-! ## B92 (src/qiskit/b92_protocol.py) -/

/-- A single-qubit state with real amplitudes.  Amplitudes are stored
unnormalized (the source divides by sqrt 2 where needed); the Born rule below
divides by the squared norm, so the probabilities agree exactly with the
source's for its normalized vectors. -/
structure QVec where
  a : ℚ
  b : ℚ
deriving DecidableEq

/-- Alice's bit-0 state |0> (create_b92_states). -/
def state_0 : QVec := ⟨1, 0⟩

/-- Alice's bit-1 state |+> = (|0> + |1>)/sqrt 2, stored unnormalized. -/
def state_plus : QVec := ⟨1, 1⟩

/-- The state |1>, produced by Eve's Z-basis collapse and by depolarization of
a prepared |0>. -/
def state_1 : QVec := ⟨0, 1⟩

/-- The state |-> = (|0> - |1>)/sqrt 2, stored unnormalized. -/
def state_minus : QVec := ⟨1, -1⟩

/-- Born probability of the conclusive-0 click, `np.vdot(state, M_0 @ state)`
for the operator M_0 = I - |+><+| = [[1/2, -1/2], [-1/2, 1/2]] built by
create_measurement_operators, written as the expanded quadratic form divided by
the squared norm of the (unnormalized) state. -/
def prob_M0 (v : QVec) : ℚ :=
  (v.a ^ 2 / 2 - v.a * v.b + v.b ^ 2 / 2) / (v.a ^ 2 + v.b ^ 2)

/-- Born probability of the conclusive-1 click, `np.vdot(state, M_1 @ state)`
for M_1 = I - |0><0| = [[0, 0], [0, 1]]. -/
def prob_M1 (v : QVec) : ℚ :=
  v.b ^ 2 / (v.a ^ 2 + v.b ^ 2)

/-- Result of one B92 measurement: the measured bit (-1 as the source's
inconclusive sentinel) and the conclusiveness flag. -/
structure B92Meas where
  bit : ℤ
  conclusive : Bool
deriving DecidableEq

/-- The measure_b92 function: Born-rule probabilities for the two conclusive
clicks, additive dark-count injection into a conclusive branch whenever its
dark-count draw fires, renormalization by the total, then the three-way outcome
decision on the outcome draw. -/
def measure_b92 (state : QVec) (dark_count_rate : ℚ)
    (dark0_draw dark1_draw outcome_draw : ℚ) : B92Meas :=
  let prob_0 := prob_M0 state
  let prob_1 := prob_M1 state
  let prob_inconclusive := 1 - prob_0 - prob_1
  let prob_0 := if dark0_draw < dark_count_rate then prob_0 + dark_count_rate else prob_0
  let prob_1 := if dark1_draw < dark_count_rate then prob_1 + dark_count_rate else prob_1
  let total := prob_0 + prob_1 + prob_inconclusive
  let prob_0 := prob_0 / total
  let prob_1 := prob_1 / total
  if outcome_draw < prob_0 then ⟨0, true⟩
  else if outcome_draw < prob_0 + prob_1 then ⟨1, true⟩
  else ⟨-1, false⟩

/-- Input parameters of b92_protocol. -/
structure B92Params where
  channel_loss : ℚ
  depolarization : ℚ
  eavesdropping_rate : ℚ
  dark_count_rate : ℚ
deriving DecidableEq

/-- The `np.random` draws consumed by one b92_protocol run, one family per
call site, indexed by the signal index: Alice's bit (randint 2), the
channel-loss check, the eavesdropping check, Eve's basis choice (true is
the Z basis, the source's character 0), Eve's collapse draw, the outer and
inner depolarization draws, the two dark-count draws and the outcome draw of
measure_b92. -/
structure B92Draws where
  aliceBit : ℕ → Fin 2
  lossCheck : ℕ → ℚ
  eavesCheck : ℕ → ℚ
  eveBasis : ℕ → Bool
  eveCollapse : ℕ → ℚ
  depolCheck : ℕ → ℚ
  depolInner : ℕ → ℚ
  dark0 : ℕ → ℚ
  dark1 : ℕ → ℚ
  outcome : ℕ → ℚ

/-- Every rational draw family of a B92 run takes values in [0, 1), as
`np.random.random()` does. -/
def B92ValidDraws (d : B92Draws) : Prop :=
  ∀ i, IsDraw (d.lossCheck i) ∧ IsDraw (d.eavesCheck i) ∧ IsDraw (d.eveCollapse i) ∧
    IsDraw (d.depolCheck i) ∧ IsDraw (d.depolInner i) ∧ IsDraw (d.dark0 i) ∧
    IsDraw (d.dark1 i) ∧ IsDraw (d.outcome i)

/-- The per-signal pipeline of b92_protocol: channel loss (inconclusive, no
detection), intercept-resend eavesdropping (state replaced by Eve's collapsed
resend), depolarization (flip to the orthogonal counterpart of Alice's
original state with inner probability one half), then Bob's measurement. -/
def b92_signal (p : B92Params) (d : B92Draws) (i : ℕ) : B92Meas :=
  if d.lossCheck i < p.channel_loss then ⟨-1, false⟩
  else
    let prepared := if (d.aliceBit i : ℕ) = 0 then state_0 else state_plus
    let prepared :=
      if d.eavesCheck i < p.eavesdropping_rate then
        if d.eveBasis i then
          if d.eveCollapse i < 1 / 2 then state_0 else state_1
        else
          if d.eveCollapse i < 1 / 2 then state_plus else state_minus
      else prepared
    let prepared :=
      if d.depolCheck i < p.depolarization then
        if d.depolInner i < 1 / 2 then
          if (d.aliceBit i : ℕ) = 0 then state_1 else state_minus
        else prepared
      else prepared
    measure_b92 prepared p.dark_count_rate (d.dark0 i) (d.dark1 i) (d.outcome i)

/-- Indices of the signals whose measurement was conclusive (the source's
conclusive_indices list comprehension). -/
def b92_conclusive_indices (p : B92Params) (d : B92Draws) (n : ℕ) : List ℕ :=
  (List.range n).filter fun i => (b92_signal p d i).conclusive

/-- The source's theoretical expectation
`expected_qber = (depolarization + eavesdropping_rate) / 2 + dark_count_rate`. -/
def b92_expected_qber (p : B92Params) : ℚ :=
  (p.depolarization + p.eavesdropping_rate) / 2 + p.dark_count_rate

/-- The source's theoretical expectation `expected_key_rate =
0.25 * (1 - channel_loss) * (1 - depolarization - eavesdropping_rate)`,
documented in the code as "Key rate = 0.25 (25 percent conclusive results)"
for the ideal protocol. -/
def b92_expected_key_rate (p : B92Params) : ℚ :=
  1 / 4 * (1 - p.channel_loss) * (1 - p.depolarization - p.eavesdropping_rate)

/-- Result record of b92_protocol (the fields the claims are about). -/
structure B92Result where
  n_signals : ℕ
  alice_bits : List ℤ
  conclusive_indices : List ℕ
  sifted_key_alice : List ℤ
  sifted_key_bob : List ℤ
  qber : ℚ
  key_rate : ℚ
  expected_qber : ℚ
  expected_key_rate : ℚ
deriving DecidableEq

/-- The body of b92_protocol after the per-signal loop: sifting on conclusive
events, QBER guarded against an empty sifted key, key rate as conclusive count
over signal count. -/
def b92_run (n : ℕ) (p : B92Params) (d : B92Draws) : B92Result :=
  let conclusive := b92_conclusive_indices p d n
  let sifted_alice : List ℤ := conclusive.map fun i => ((d.aliceBit i : ℕ) : ℤ)
  let sifted_bob : List ℤ := conclusive.map fun i => (b92_signal p d i).bit
  let errors := mismatch_count sifted_alice sifted_bob
  let qber := if 0 < sifted_alice.length then (errors : ℚ) / (sifted_alice.length : ℚ) else 0
  { n_signals := n
    alice_bits := (List.range n).map fun i => ((d.aliceBit i : ℕ) : ℤ)
    conclusive_indices := conclusive
    sifted_key_alice := sifted_alice
    sifted_key_bob := sifted_bob
    qber := qber
    key_rate := (conclusive.length : ℚ) / (n : ℚ)
    expected_qber := b92_expected_qber p
    expected_key_rate := b92_expected_key_rate p }

/-- b92_protocol.  The statistics line `key_rate = len(conclusive_indices) /
n_signals` divides by `n_signals` without a guard, so the Python function
raises ZeroDivisionError when `n_signals = 0`; rational division would
silently return 0 here, so the exception is modelled explicitly.  (The QBER
line just above it is guarded by the source and reaches 0.0 first.) -/
def b92_protocol (n : ℕ) (p : B92Params) (d : B92Draws) : Except String B92Result :=
  if n = 0 then Except.error "ZeroDivisionError: division by zero"
  else Except.ok (b92_run n p d)

/-- The all-zero parameter point of the concrete B92 scenario (no loss, no
noise, no eavesdropping, no dark counts). -/
def b92ZeroParams : B92Params := ⟨0, 0, 0, 0⟩

/-- B92 parameters with the channel loss forced to 1. -/
def b92LossyParams : B92Params := ⟨1, 0, 0, 0⟩

/-- A concrete all-zero draw record (every rational draw 0, every bit 0). -/
def b92ZeroDraws : B92Draws :=
  ⟨fun _ => 0, fun _ => 0, fun _ => 0, fun _ => false, fun _ => 0,
   fun _ => 0, fun _ => 0, fun _ => 0, fun _ => 0, fun _ => 0⟩

/-! ## Accurate E91 (src/qiskit/e91_protocol.py) -/

/-- The four Bell states accepted by create_bell_state (an unknown string
raises ValueError in the source, so only these four values reach the rest of
the protocol). -/
inductive BellState
  | psi_minus
  | psi_plus
  | phi_minus
  | phi_plus
deriving DecidableEq

/-- The 4x4 density matrix `np.outer(v, v.conj())` of the chosen Bell state.
The source builds each from the normalized vector v/sqrt 2; here the outer
product of the integer vector is halved, which is the same matrix, with exact
rational entries. -/
def create_bell_state : BellState → Matrix (Fin 4) (Fin 4) ℚ
  | .psi_minus => (1 / 2 : ℚ) • Matrix.vecMulVec ![0, 1, -1, 0] ![0, 1, -1, 0]
  | .psi_plus => (1 / 2 : ℚ) • Matrix.vecMulVec ![0, 1, 1, 0] ![0, 1, 1, 0]
  | .phi_minus => (1 / 2 : ℚ) • Matrix.vecMulVec ![1, 0, 0, -1] ![1, 0, 0, -1]
  | .phi_plus => (1 / 2 : ℚ) • Matrix.vecMulVec ![1, 0, 0, 1] ![1, 0, 0, 1]

/-- The depolarizing channel of the source: rho' = (1 - p) rho + p I / 4. -/
def apply_depolarizing_channel (rho : Matrix (Fin 4) (Fin 4) ℚ) (p : ℚ) :
    Matrix (Fin 4) (Fin 4) ℚ :=
  (1 - p) • rho + (p / 4) • (1 : Matrix (Fin 4) (Fin 4) ℚ)

/-- The measurement_angles dictionary of measure_in_basis, in units of pi/4:
basis 0 is the Z basis (angle 0), basis 1 the X basis (angle pi/2), basis 2
the diagonal basis (angle pi/4). -/
def angle_quarters (basis : Fin 3) : ℤ :=
  if basis = 0 then 0 else if basis = 1 then 2 else 1

/-- The same-outcome probability `p_same = np.sin(theta_a - theta_b) ** 2`
computed by measure_in_basis.  The angle difference is always a multiple of
pi/4 in [-pi/2, pi/2], so sin^2 takes the exact rational values 0, 1/2, 1;
`p_same_eq_sin_sq` below proves this table equal to the source expression. -/
def p_same (alice_basis bob_basis : Fin 3) : ℚ :=
  if (angle_quarters alice_basis - angle_quarters bob_basis).natAbs = 0 then 0
  else if (angle_quarters alice_basis - angle_quarters bob_basis).natAbs = 1 then 1 / 2
  else 1

/-- The anti-correlation probability `p_anti = np.cos(theta_a - theta_b) ** 2`
also computed by measure_in_basis.  The source assigns it but never uses it in
the outcome draw (only p_same feeds the comparison with the random draw). -/
def p_anti (alice_basis bob_basis : Fin 3) : ℚ :=
  1 - p_same alice_basis bob_basis

/-- The measure_in_basis function.  It receives the (noisy) density matrix rho
exactly as the source does, and exactly as the source does it never reads it:
Alice's outcome is the randint(2) draw, and Bob's outcome equals Alice's when
the correlation draw falls below p_same of the two bases, else its flip. -/
def measure_in_basis (rho : Matrix (Fin 4) (Fin 4) ℚ)
    (alice_basis bob_basis : Fin 3) (alice_draw : Fin 2) (corr_draw : ℚ) : ℕ × ℕ :=
  let alice_result : ℕ := (alice_draw : ℕ)
  if corr_draw < p_same alice_basis bob_basis then (alice_result, alice_result)
  else (alice_result, 1 - alice_result)

/-- Input parameters of e91_protocol (the Bell state selector is passed
separately). -/
structure E91Params where
  depolarization : ℚ
  eavesdropping_rate : ℚ
  dark_count_rate : ℚ
deriving DecidableEq

/-- Replace only the depolarization field of an E91 parameter record. -/
def setDepol (p : E91Params) (q : ℚ) : E91Params :=
  ⟨q, p.eavesdropping_rate, p.dark_count_rate⟩

/-- The `np.random` draws consumed by one e91_protocol run: the two basis
choices, the eavesdropping check, the first randint(2) of each pair (Alice's
bit in both the intercept-resend branch and measure_in_basis), the second
randint(2) of the intercept-resend branch (Bob's uncorrelated bit), the
correlation draw of measure_in_basis, and the two dark-count checks. -/
structure E91Draws where
  aliceBasis : ℕ → Fin 3
  bobBasis : ℕ → Fin 3
  eavesCheck : ℕ → ℚ
  aliceBit : ℕ → Fin 2
  bobBitEve : ℕ → Fin 2
  corrDraw : ℕ → ℚ
  darkA : ℕ → ℚ
  darkB : ℕ → ℚ

/-- Every rational draw family of an E91 run takes values in [0, 1). -/
def E91ValidDraws (d : E91Draws) : Prop :=
  ∀ i, IsDraw (d.eavesCheck i) ∧ IsDraw (d.corrDraw i) ∧
    IsDraw (d.darkA i) ∧ IsDraw (d.darkB i)

/-- One iteration of the e91_protocol measurement loop: with probability
eavesdropping_rate both bits are independent coin flips (intercept-resend),
otherwise measure_in_basis produces the pair; each party's bit is then flipped
independently with probability dark_count_rate. -/
def e91_pair (p : E91Params) (d : E91Draws) (rho : Matrix (Fin 4) (Fin 4) ℚ)
    (i : ℕ) : ℕ × ℕ :=
  let raw : ℕ × ℕ :=
    if d.eavesCheck i < p.eavesdropping_rate then
      ((d.aliceBit i : ℕ), (d.bobBitEve i : ℕ))
    else
      measure_in_basis rho (d.aliceBasis i) (d.bobBasis i) (d.aliceBit i) (d.corrDraw i)
  let alice_bit := if d.darkA i < p.dark_count_rate then 1 - raw.1 else raw.1
  let bob_bit := if d.darkB i < p.dark_count_rate then 1 - raw.2 else raw.2
  (alice_bit, bob_bit)

/-- The outcome pair of index i: e91_pair applied to the depolarized Bell
state, exactly as e91_protocol wires the pieces together. -/
def e91_outcome (p : E91Params) (d : E91Draws) (bs : BellState) (i : ℕ) : ℕ × ℕ :=
  e91_pair p d (apply_depolarizing_channel (create_bell_state bs) p.depolarization) i

/-- Key-generation subset: the pair indices whose bases match. -/
def e91_key_gen_indices (d : E91Draws) (n : ℕ) : List ℕ :=
  (List.range n).filter fun i => decide (d.aliceBasis i = d.bobBasis i)

/-- Bell-test subset: the pair indices whose bases differ. -/
def e91_bell_test_indices (d : E91Draws) (n : ℕ) : List ℕ :=
  (List.range n).filter fun i => decide (¬ d.aliceBasis i = d.bobBasis i)

/-- The plus/minus-one products collected by calculate_chsh_s_value under the
dictionary key of one basis pair, over the Bell-test subset the source hands
to it. -/
def chsh_products (d : E91Draws) (out : ℕ → ℕ × ℕ) (n : ℕ) (ka kb : Fin 3) : List ℤ :=
  ((e91_bell_test_indices d n).filter fun i =>
      decide (d.aliceBasis i = ka ∧ d.bobBasis i = kb)).map
    fun i => pm (out i).1 * pm (out i).2

/-- The CHSH combination of calculate_chsh_s_value:
S = E_02 - E_01 + E_12 + E_10 (basis 0 at angle 0, basis 1 at 90 degrees,
basis 2 at 45 degrees), each term the guarded mean of its product list. -/
def calculate_chsh_s_value (d : E91Draws) (out : ℕ → ℕ × ℕ) (n : ℕ) : ℚ :=
  correlation (chsh_products d out n 0 2) - correlation (chsh_products d out n 0 1) +
    correlation (chsh_products d out n 1 2) + correlation (chsh_products d out n 1 0)

/-- Result record of e91_protocol (the fields the claims are about). -/
structure E91Result where
  n_pairs : ℕ
  bell_state : BellState
  alice_bases : List (Fin 3)
  bob_bases : List (Fin 3)
  alice_outcomes : List ℕ
  bob_outcomes : List ℕ
  bell_test_indices : List ℕ
  key_gen_indices : List ℕ
  alice_sifted_key : List ℕ
  bob_sifted_key : List ℕ
  bob_corrected_key : List ℕ
  qber : ℚ
  chsh_s_value : ℚ
  bell_violated : Bool
  expected_qber : ℚ
  depolarization : ℚ
deriving DecidableEq

/-- e91_protocol: generate all outcome pairs, split the indices into Bell-test
and key-generation subsets, compute the CHSH S-value on the former and the
QBER (after the anti-correlation flip of Bob's bits) on the latter, and report
Bell violation as |S| > 2.  The expected S-value field of the source,
2 sqrt 2 (1 - depolarization - eavesdropping_rate), is irrational and is
omitted from the embedded record; no claim mentions it. -/
def e91_protocol (n : ℕ) (p : E91Params) (d : E91Draws) (bs : BellState) : E91Result :=
  let out := e91_outcome p d bs
  let keyGen := e91_key_gen_indices d n
  let alice_sifted := keyGen.map fun i => (out i).1
  let bob_sifted := keyGen.map fun i => (out i).2
  let bob_corrected := bob_sifted.map fun bit => 1 - bit
  let errors := mismatch_count alice_sifted bob_corrected
  let qber := if 0 < alice_sifted.length then (errors : ℚ) / (alice_sifted.length : ℚ) else 0
  let S := calculate_chsh_s_value d out n
  { n_pairs := n
    bell_state := bs
    alice_bases := (List.range n).map d.aliceBasis
    bob_bases := (List.range n).map d.bobBasis
    alice_outcomes := (List.range n).map fun i => (out i).1
    bob_outcomes := (List.range n).map fun i => (out i).2
    bell_test_indices := e91_bell_test_indices d n
    key_gen_indices := keyGen
    alice_sifted_key := alice_sifted
    bob_sifted_key := bob_sifted
    bob_corrected_key := bob_corrected
    qber := qber
    chsh_s_value := S
    bell_violated := if 2 < |S| then true else false
    expected_qber := (p.depolarization + p.eavesdropping_rate) / 2 + p.dark_count_rate
    depolarization := p.depolarization }

/-- The zero-noise E91 parameter point. -/
def e91ZeroParams : E91Params := ⟨0, 0, 0⟩

/-- A concrete all-zero E91 draw record. -/
def e91ZeroDraws : E91Draws :=
  ⟨fun _ => 0, fun _ => 0, fun _ => 0, fun _ => 0, fun _ => 0,
   fun _ => 0, fun _ => 0, fun _ => 0⟩

/-- A concrete E91 draw record whose first pair has bases (0, 1) and whose
second pair has bases (1, 0), so both unit-correlation CHSH terms are
populated; all rational draws are 0. -/
def e91MixedDraws : E91Draws :=
  ⟨fun i => if i = 0 then 0 else 1, fun i => if i = 0 then 1 else 0,
   fun _ => 0, fun _ => 0, fun _ => 0, fun _ => 0, fun _ => 0, fun _ => 0⟩

/-! ## Basic E91 (src/backend/e91_protocol.py, served by /api/e91) -/

/-- The draws consumed by the basic e91_protocol: the two basis choices and
Alice's randint(2) bit per pair (Bob's bit is computed, not drawn). -/
structure E91BasicDraws where
  aliceBasis : ℕ → Fin 3
  bobBasis : ℕ → Fin 3
  aliceBit : ℕ → Fin 2

/-- The outcome generation of the basic implementation: Alice's bit is the
coin flip, Bob's bit is 1 - alice_bit (perfect anti-correlation, no noise
path exists in this implementation). -/
def e91_basic_outcome (d : E91BasicDraws) (i : ℕ) : ℕ × ℕ :=
  ((d.aliceBit i : ℕ), 1 - (d.aliceBit i : ℕ))

/-- The product list collected by calculate_chsh_correlation under one of its
four basis-pair keys.  Unlike the accurate implementation, the basic one scans
all pairs (including matching-basis ones, as its E_11 term shows). -/
def e91_basic_chsh_list (d : E91BasicDraws) (n : ℕ) (ka kb : Fin 3) : List ℤ :=
  ((List.range n).filter fun i =>
      decide (d.aliceBasis i = ka ∧ d.bobBasis i = kb)).map
    fun i => pm (e91_basic_outcome d i).1 * pm (e91_basic_outcome d i).2

/-- The CHSH value of calculate_chsh_correlation:
chsh_value = E_01 - E_02 + E_11 + E_12, each term the guarded mean. -/
def e91_basic_chsh_value (d : E91BasicDraws) (n : ℕ) : ℚ :=
  correlation (e91_basic_chsh_list d n 0 1) - correlation (e91_basic_chsh_list d n 0 2) +
    correlation (e91_basic_chsh_list d n 1 1) + correlation (e91_basic_chsh_list d n 1 2)

/-- Sifted indices of the basic implementation: matching bases. -/
def e91_basic_sifted_indices (d : E91BasicDraws) (n : ℕ) : List ℕ :=
  (List.range n).filter fun i => decide (d.aliceBasis i = d.bobBasis i)

/-- Result record of the basic e91_protocol. -/
structure E91BasicResult where
  n_pairs : ℕ
  alice_outcomes : List ℕ
  bob_outcomes : List ℕ
  alice_sifted_key : List ℕ
  bob_sifted_key : List ℕ
  bob_corrected_key : List ℕ
  qber : ℚ
  chsh_value : ℚ
  bell_violated : Bool
deriving DecidableEq

/-- The basic e91_protocol: anti-correlated outcome pairs, CHSH value over the
four fixed basis-pair terms, sifting on matching bases, Bob's key flipped for
the anti-correlation correction, QBER guarded against an empty sifted key,
Bell violation as |chsh_value| > 2. -/
def e91_basic_protocol (n : ℕ) (d : E91BasicDraws) : E91BasicResult :=
  let sifted := e91_basic_sifted_indices d n
  let alice_sifted := sifted.map fun i => (e91_basic_outcome d i).1
  let bob_sifted := sifted.map fun i => (e91_basic_outcome d i).2
  let bob_corrected := bob_sifted.map fun bit => 1 - bit
  let errors := mismatch_count alice_sifted bob_corrected
  let qber := if 0 < alice_sifted.length then (errors : ℚ) / (alice_sifted.length : ℚ) else 0
  let chsh := e91_basic_chsh_value d n
  { n_pairs := n
    alice_outcomes := (List.range n).map fun i => (e91_basic_outcome d i).1
    bob_outcomes := (List.range n).map fun i => (e91_basic_outcome d i).2
    alice_sifted_key := alice_sifted
    bob_sifted_key := bob_sifted
    bob_corrected_key := bob_corrected
    qber := qber
    chsh_value := chsh
    bell_violated := if 2 < |chsh| then true else false }

/-- A concrete draw record for the basic implementation whose four pairs carry
the four CHSH basis pairs (0,1), (0,2), (1,1), (1,2), so every CHSH term is
populated. -/
def e91BasicMixedDraws : E91BasicDraws :=
  ⟨fun i => if i ≤ 1 then 0 else 1, fun i => if i % 2 = 0 then 1 else 2, fun _ => 0⟩

/-! ## Simulated BB84 (src/backend/app.py, /api/bb84/simulate) -/

/-- Input parameters of the simulated BB84 path.  The source derives
photon_loss_prob from the fiber length by the Beer-Lambert law,
`1 - 10 ** (-(attenuation_coeff * fiber_length) / 10)`, a transcendental
expression; it is taken here as a parameter (0 at fiber_length 0, the value
every claim needs; `beer_lambert_zero_length` below checks that identity). -/
structure BB84Params where
  depolarization : ℚ
  phase_damping : ℚ
  amplitude_damping : ℚ
  photon_loss_prob : ℚ
deriving DecidableEq

/-- The combined loss probability of the source:
`min(amplitude_damping + photon_loss_prob, 1.0)`. -/
def combined_amplitude_damping (p : BB84Params) : ℚ :=
  min (p.amplitude_damping + p.photon_loss_prob) 1

/-- The draws consumed by one simulated BB84 run: Alice's bit, Alice's basis,
Bob's basis (randint(2) arrays), the photon-loss check, the depolarization
check, the phase-damping check, and the fresh random bit Bob records when the
bases differ. -/
structure BB84Draws where
  aliceBit : ℕ → Fin 2
  aliceBasis : ℕ → Fin 2
  bobBasis : ℕ → Fin 2
  lossDraw : ℕ → ℚ
  depolDraw : ℕ → ℚ
  phaseDraw : ℕ → ℚ
  wrongBasisBit : ℕ → Fin 2

/-- Every rational draw family of a BB84 run takes values in [0, 1). -/
def BB84ValidDraws (d : BB84Draws) : Prop :=
  ∀ i, IsDraw (d.lossDraw i) ∧ IsDraw (d.depolDraw i) ∧ IsDraw (d.phaseDraw i)

/-- Indices of the photons that survive by the loss check (the source's
detected_indices list). -/
def bb84_detected_indices (p : BB84Params) (d : BB84Draws) (n : ℕ) : List ℕ :=
  (List.range n).filter fun i => decide (¬ d.lossDraw i < combined_amplitude_damping p)

/-- Bob's recorded value for a detected photon: Alice's bit, flipped by
depolarization, flipped again by phase damping when Alice used the diagonal
basis, and replaced by a fresh random bit when the bases differ. -/
def bb84_bob_result (p : BB84Params) (d : BB84Draws) (i : ℕ) : ℕ :=
  let bit : ℕ := (d.aliceBit i : ℕ)
  let bit := if d.depolDraw i < p.depolarization then 1 - bit else bit
  let bit := if d.aliceBasis i = 1 ∧ d.phaseDraw i < p.phase_damping then 1 - bit else bit
  if d.aliceBasis i = d.bobBasis i then bit else (d.wrongBasisBit i : ℕ)

/-- Sifted indices: detected photons whose bases match.  Both keys of the
source are comprehensions over exactly this index list, which is the shared
indices-of-origin invariant. -/
def bb84_sift_indices (p : BB84Params) (d : BB84Draws) (n : ℕ) : List ℕ :=
  (bb84_detected_indices p d n).filter fun i => decide (d.aliceBasis i = d.bobBasis i)

/-- Result record of the simulated BB84 path. -/
structure BB84Result where
  alice_bits : List ℕ
  alice_bases : List ℕ
  bob_bases : List ℕ
  bob_results : List ℕ
  detected_indices : List ℕ
  alice_key : List ℕ
  bob_key : List ℕ
  qber : ℚ
deriving DecidableEq

/-- The simulate_bb84 handler body (simulation only, the excluded HTTP shell
stripped): raw sequences, per-detected-photon measurement, sifting, and the
QBER guarded by the source's `if alice_key and bob_key` truthiness test. -/
def simulate_bb84 (n : ℕ) (p : BB84Params) (d : BB84Draws) : BB84Result :=
  let detected := bb84_detected_indices p d n
  let sift := bb84_sift_indices p d n
  let alice_key := sift.map fun i => (d.aliceBit i : ℕ)
  let bob_key := sift.map (bb84_bob_result p d)
  let qber :=
    if alice_key ≠ [] ∧ bob_key ≠ [] then
      (mismatch_count alice_key bob_key : ℚ) / (alice_key.length : ℚ)
    else 0
  { alice_bits := (List.range n).map fun i => (d.aliceBit i : ℕ)
    alice_bases := (List.range n).map fun i => (d.aliceBasis i : ℕ)
    bob_bases := (List.range n).map fun i => (d.bobBasis i : ℕ)
    bob_results := detected.map (bb84_bob_result p d)
    detected_indices := detected
    alice_key := alice_key
    bob_key := bob_key
    qber := qber }

/-- The noiseless BB84 parameter point: zero depolarization, phase damping and
amplitude damping, and zero photon loss (fiber length 0). -/
def bb84NoiselessParams : BB84Params := ⟨0, 0, 0, 0⟩

/-- BB84 parameters whose combined amplitude damping is forced to 1. -/
def bb84LossyParams : BB84Params := ⟨0, 0, 1, 0⟩

/-- A concrete all-zero BB84 draw record. -/
def bb84ZeroDraws : BB84Draws :=
  ⟨fun _ => 0, fun _ => 0, fun _ => 0, fun _ => 0, fun _ => 0, fun _ => 0, fun _ => 0⟩

/-- A concrete BB84 draw record with mixed bases: Alice's basis alternates,
Bob's is always 0, so sifting keeps exactly the even indices. -/
def bb84MixedDraws : BB84Draws :=
  ⟨fun _ => 0, fun i => if i % 2 = 0 then 0 else 1, fun _ => 0,
   fun _ => 0, fun _ => 0, fun _ => 0, fun _ => 0⟩

/-! ## Helper lemmas -/

lemma isDraw_zero : IsDraw 0 := ⟨le_refl 0, by norm_num⟩

lemma b92ZeroDraws_valid : B92ValidDraws b92ZeroDraws :=
  fun _ => ⟨isDraw_zero, isDraw_zero, isDraw_zero, isDraw_zero, isDraw_zero,
    isDraw_zero, isDraw_zero, isDraw_zero⟩

lemma e91ZeroDraws_valid : E91ValidDraws e91ZeroDraws :=
  fun _ => ⟨isDraw_zero, isDraw_zero, isDraw_zero, isDraw_zero⟩

lemma e91MixedDraws_valid : E91ValidDraws e91MixedDraws :=
  fun _ => ⟨isDraw_zero, isDraw_zero, isDraw_zero, isDraw_zero⟩

lemma bb84ZeroDraws_valid : BB84ValidDraws bb84ZeroDraws :=
  fun _ => ⟨isDraw_zero, isDraw_zero, isDraw_zero⟩

lemma bb84MixedDraws_valid : BB84ValidDraws bb84MixedDraws :=
  fun _ => ⟨isDraw_zero, isDraw_zero, isDraw_zero⟩

lemma mismatch_count_self {α : Type} [DecidableEq α] (l : List α) :
    mismatch_count l l = 0 := by
  induction l with
  | nil => rfl
  | cons a t ih => simpa [mismatch_count] using ih

lemma mismatch_count_map_eq_zero {α : Type} [DecidableEq α] (l : List ℕ) (f g : ℕ → α)
    (h : ∀ i ∈ l, f i = g i) : mismatch_count (l.map f) (l.map g) = 0 := by
  induction l with
  | nil => rfl
  | cons a t ih =>
    have ha : f a = g a := h a (List.mem_cons_self a t)
    have ht := ih fun i hi => h i (List.mem_cons_of_mem a hi)
    simpa [mismatch_count, ha] using ht

lemma list_sum_eq_of_all_eq (l : List ℤ) (c : ℤ) (h : ∀ x ∈ l, x = c) :
    l.sum = c * l.length := by
  induction l with
  | nil => simp
  | cons a t ih =>
    have ha : a = c := h a (List.mem_cons_self a t)
    have ht := ih fun x hx => h x (List.mem_cons_of_mem a hx)
    simp only [List.sum_cons, List.length_cons, ha, ht]
    push_cast
    ring

lemma correlation_eq_of_all_eq (l : List ℤ) (c : ℤ) (hne : l ≠ [])
    (h : ∀ x ∈ l, x = c) : correlation l = (c : ℚ) := by
  have hlen : l.length ≠ 0 := by simpa [List.length_eq_zero] using hne
  have hq : (l.length : ℚ) ≠ 0 := Nat.cast_ne_zero.mpr hlen
  rw [correlation, if_neg hlen, list_sum_eq_of_all_eq l c h]
  push_cast
  field_simp

lemma list_sum_abs_le_length (l : List ℤ) (h : ∀ x ∈ l, x = 1 ∨ x = -1) :
    |l.sum| ≤ (l.length : ℤ) := by
  induction l with
  | nil => simp
  | cons a t ih =>
    have ha : |a| ≤ 1 := by rcases h a (List.mem_cons_self a t) with h1 | h1 <;> simp [h1]
    have ht := ih fun x hx => h x (List.mem_cons_of_mem a hx)
    simp only [List.sum_cons, List.length_cons]
    calc |a + t.sum| ≤ |a| + |t.sum| := abs_add _ _
      _ ≤ 1 + (t.length : ℤ) := add_le_add ha ht
      _ = ((t.length + 1 : ℕ) : ℤ) := by push_cast; ring

lemma abs_correlation_le_one (l : List ℤ) (h : ∀ x ∈ l, x = 1 ∨ x = -1) :
    |correlation l| ≤ 1 := by
  by_cases hlen : l.length = 0
  · simp [correlation, hlen]
  · have hpos : (0 : ℚ) < (l.length : ℚ) :=
      Nat.cast_pos.mpr (Nat.pos_of_ne_zero hlen)
    rw [correlation, if_neg hlen, abs_div, abs_of_pos hpos, div_le_one hpos]
    exact_mod_cast list_sum_abs_le_length l h

lemma pm_mul_self (x : ℕ) : pm x * pm x = 1 := by
  by_cases hx : x = 0 <;> simp [pm, hx]

lemma pm_eq_one_or_neg_one (x : ℕ) : pm x = 1 ∨ pm x = -1 := by
  by_cases hx : x = 0 <;> simp [pm, hx]

lemma pm_mul_flip (x : ℕ) (hx : x ≤ 1) : pm x * pm (1 - x) = -1 := by
  interval_cases x <;> norm_num [pm]

/-- At fiber length 0 the Beer-Lambert photon loss of the source,
1 - 10 ** (-(attenuation_coeff * fiber_length) / 10), is exactly 0, the
photon_loss_prob of the noiseless parameter point. -/
lemma beer_lambert_zero_length (attenuation_coeff : ℝ) :
    1 - (10 : ℝ) ^ (-(attenuation_coeff * 0) / 10) =
      (bb84NoiselessParams.photon_loss_prob : ℝ) := by
  have h : -(attenuation_coeff * 0) / 10 = (0 : ℝ) := by ring
  rw [h, Real.rpow_zero]
  norm_num [bb84NoiselessParams]

/-- Exact values of sin^2 at the multiples of pi/4 that can arise as E91
basis-angle differences. -/
lemma sin_sq_quarter (k : ℤ) (hlo : -2 ≤ k) (hhi : k ≤ 2) :
    Real.sin ((k : ℝ) * (Real.pi / 4)) ^ 2 =
      if k.natAbs = 0 then 0 else if k.natAbs = 1 then 1 / 2 else 1 := by
  have h4 : Real.sin (Real.pi / 4) ^ 2 = 1 / 2 := by
    rw [Real.sin_pi_div_four, div_pow, Real.sq_sqrt (by norm_num : (0 : ℝ) ≤ 2)]
    norm_num
  have h2 : Real.sin (Real.pi / 2) ^ 2 = 1 := by
    rw [Real.sin_pi_div_two]; norm_num
  interval_cases k
  · rw [show ((-2 : ℤ) : ℝ) * (Real.pi / 4) = -(Real.pi / 2) from by push_cast; ring,
      Real.sin_neg, neg_sq, h2]
    norm_num
  · rw [show ((-1 : ℤ) : ℝ) * (Real.pi / 4) = -(Real.pi / 4) from by push_cast; ring,
      Real.sin_neg, neg_sq, h4]
    norm_num
  · norm_num
  · rw [show ((1 : ℤ) : ℝ) * (Real.pi / 4) = Real.pi / 4 from by push_cast; ring, h4]
    norm_num
  · rw [show ((2 : ℤ) : ℝ) * (Real.pi / 4) = Real.pi / 2 from by push_cast; ring, h2]
    norm_num

/-- The exact rational same-outcome table equals the expression
`np.sin(theta_a - theta_b) ** 2` that measure_in_basis evaluates, for the
measurement angles 0, pi/2, pi/4 of bases 0, 1, 2. -/
lemma p_same_eq_sin_sq (a b : Fin 3) :
    (p_same a b : ℝ) =
      Real.sin ((angle_quarters a : ℝ) * (Real.pi / 4) -
        (angle_quarters b : ℝ) * (Real.pi / 4)) ^ 2 := by
  have hsub : (angle_quarters a : ℝ) * (Real.pi / 4) - (angle_quarters b : ℝ) * (Real.pi / 4)
      = ((angle_quarters a - angle_quarters b : ℤ) : ℝ) * (Real.pi / 4) := by
    push_cast; ring
  have hlo : -2 ≤ angle_quarters a - angle_quarters b := by
    fin_cases a <;> fin_cases b <;> decide
  have hhi : angle_quarters a - angle_quarters b ≤ 2 := by
    fin_cases a <;> fin_cases b <;> decide
  rw [hsub, sin_sq_quarter _ hlo hhi]
  simp only [p_same]
  split_ifs <;> norm_num

/-- With a zero dark-count rate and non-negative dark-count draws, measure_b92
reduces to the bare Born-rule three-way decision (the total of the three
probabilities is exactly 1, so the renormalization divides by 1). -/
lemma measure_b92_zero_dark (v : QVec) (d0 d1 r : ℚ) (h0 : 0 ≤ d0) (h1 : 0 ≤ d1) :
    measure_b92 v 0 d0 d1 r =
      (if r < prob_M0 v then ⟨0, true⟩
       else if r < prob_M0 v + prob_M1 v then ⟨1, true⟩ else ⟨-1, false⟩) := by
  have hd0 : ¬ d0 < (0 : ℚ) := not_lt.mpr h0
  have hd1 : ¬ d1 < (0 : ℚ) := not_lt.mpr h1
  simp only [measure_b92, if_neg hd0, if_neg hd1]
  have htot : prob_M0 v + prob_M1 v + (1 - prob_M0 v - prob_M1 v) = 1 := by ring
  rw [htot, div_one, div_one]

/-- Measuring the prepared state |0>: the conclusive-0 branch fires exactly on
draws below 1/2, and the conclusive-1 branch is unreachable. -/
lemma measure_b92_state_0 (d0 d1 r : ℚ) (h0 : 0 ≤ d0) (h1 : 0 ≤ d1) :
    measure_b92 state_0 0 d0 d1 r =
      (if r < 1 / 2 then ⟨0, true⟩ else ⟨-1, false⟩) := by
  rw [measure_b92_zero_dark _ _ _ _ h0 h1]
  have e0 : prob_M0 state_0 = 1 / 2 := by norm_num [prob_M0, state_0]
  have e1 : prob_M1 state_0 = 0 := by norm_num [prob_M1, state_0]
  rw [e0, e1, add_zero]
  by_cases hr : r < 1 / 2
  · rw [if_pos hr, if_pos hr]
  · rw [if_neg hr, if_neg hr, if_neg hr]

/-- Measuring the prepared state |+>: the conclusive-1 branch fires exactly on
draws below 1/2, and the conclusive-0 branch is unreachable for non-negative
draws. -/
lemma measure_b92_state_plus (d0 d1 r : ℚ) (h0 : 0 ≤ d0) (h1 : 0 ≤ d1) (hr : 0 ≤ r) :
    measure_b92 state_plus 0 d0 d1 r =
      (if r < 1 / 2 then ⟨1, true⟩ else ⟨-1, false⟩) := by
  rw [measure_b92_zero_dark _ _ _ _ h0 h1]
  have e0 : prob_M0 state_plus = 0 := by norm_num [prob_M0, state_plus]
  have e1 : prob_M1 state_plus = 1 / 2 := by norm_num [prob_M1, state_plus]
  have hr0 : ¬ r < (0 : ℚ) := not_lt.mpr hr
  rw [e0, e1, zero_add, if_neg hr0]

/-- With depolarization, eavesdropping and dark counts all zero (channel loss
arbitrary), the whole per-signal pipeline collapses to: lost, or conclusive
with Bob's bit equal to Alice's on a sub-1/2 outcome draw, or inconclusive. -/
lemma b92_signal_zero_noise (loss : ℚ) (d : B92Draws) (hd : B92ValidDraws d) (i : ℕ) :
    b92_signal ⟨loss, 0, 0, 0⟩ d i =
      (if d.lossCheck i < loss then ⟨-1, false⟩
       else if d.outcome i < 1 / 2 then ⟨((d.aliceBit i : ℕ) : ℤ), true⟩
       else ⟨-1, false⟩) := by
  obtain ⟨hloss, heaves, hcol, hdep, hinner, hd0, hd1, hout⟩ := hd i
  by_cases hl : d.lossCheck i < loss
  · simp [b92_signal, hl]
  · have h2 : ¬ d.eavesCheck i < (0 : ℚ) := not_lt.mpr heaves.1
    have h3 : ¬ d.depolCheck i < (0 : ℚ) := not_lt.mpr hdep.1
    simp only [b92_signal, if_neg hl, if_neg h2, if_neg h3]
    by_cases hbit : (d.aliceBit i : ℕ) = 0
    · rw [if_pos hbit, measure_b92_state_0 _ _ _ hd0.1 hd1.1, hbit]
      norm_num
    · have hone : (d.aliceBit i : ℕ) = 1 := by
        have := (d.aliceBit i).isLt
        omega
      rw [if_neg hbit, measure_b92_state_plus _ _ _ hd0.1 hd1.1 hout.1, hone]
      norm_num

/-! ## Claim theorems -/

/-- C1.  The claim says the accurate E91 outcome generation draws Bob's bit
from the depolarization-mixed singlet model, so that the distribution of
(alice_outcomes, bob_outcomes) depends on the depolarization parameter.  The
code computes the depolarized density matrix and passes it to
measure_in_basis, but measure_in_basis never reads it: the outcome pair, the
QBER, the CHSH S-value and the Bell verdict are bit-for-bit identical for any
two depolarization values (here q and q'), on the same draws.  The matching
basis anti-correlation probability is 1 (p_same = 0) for every depolarization,
instead of decaying linearly to 1/2. -/
theorem e91_outcomes_ignore_depolarization (n : ℕ) (p : E91Params) (q q' : ℚ)
    (d : E91Draws) (bs : BellState) :
    (e91_protocol n (setDepol p q) d bs).alice_outcomes =
      (e91_protocol n (setDepol p q') d bs).alice_outcomes ∧
    (e91_protocol n (setDepol p q) d bs).bob_outcomes =
      (e91_protocol n (setDepol p q') d bs).bob_outcomes ∧
    (e91_protocol n (setDepol p q) d bs).qber =
      (e91_protocol n (setDepol p q') d bs).qber ∧
    (e91_protocol n (setDepol p q) d bs).chsh_s_value =
      (e91_protocol n (setDepol p q') d bs).chsh_s_value ∧
    (e91_protocol n (setDepol p q) d bs).bell_violated =
      (e91_protocol n (setDepol p q') d bs).bell_violated ∧
    (∀ basis : Fin 3, p_same basis basis = 0) :=
  ⟨rfl, rfl, rfl, rfl, rfl, fun basis => by simp [p_same]⟩

/-- C10.  The bell_state argument of the accurate e91_protocol only selects
the density matrix that measure_in_basis ignores, so every reported field
except the echoed bell_state is identical across the four Bell states, for
identical draws and parameters. -/
theorem e91_result_independent_of_bell_state (n : ℕ) (p : E91Params) (d : E91Draws)
    (bs bs' : BellState) :
    (e91_protocol n p d bs).alice_bases = (e91_protocol n p d bs').alice_bases ∧
    (e91_protocol n p d bs).bob_bases = (e91_protocol n p d bs').bob_bases ∧
    (e91_protocol n p d bs).alice_outcomes = (e91_protocol n p d bs').alice_outcomes ∧
    (e91_protocol n p d bs).bob_outcomes = (e91_protocol n p d bs').bob_outcomes ∧
    (e91_protocol n p d bs).qber = (e91_protocol n p d bs').qber ∧
    (e91_protocol n p d bs).chsh_s_value = (e91_protocol n p d bs').chsh_s_value ∧
    (e91_protocol n p d bs).bell_violated = (e91_protocol n p d bs').bell_violated ∧
    (e91_protocol n p d bs).bell_state = bs :=
  ⟨rfl, rfl, rfl, rfl, rfl, rfl, rfl, rfl⟩

/-- C4.  A zero-count run completes with QBER 0 in the simulated BB84 path
and in the accurate E91 protocol, but b92_protocol raises ZeroDivisionError
computing `key_rate = len(conclusive_indices) / n_signals`, instead of
returning qber = 0 and key_rate = 0 as the claim states. -/
theorem zero_signal_runs (pB : B92Params) (dB : B92Draws) (pE : E91Params)
    (dE : E91Draws) (bsE : BellState) (pBB : BB84Params) (dBB : BB84Draws) :
    b92_protocol 0 pB dB = Except.error "ZeroDivisionError: division by zero" ∧
    (e91_protocol 0 pE dE bsE).qber = 0 ∧
    (simulate_bb84 0 pBB dBB).qber = 0 :=
  ⟨rfl, rfl, rfl⟩

/-- C5 counterexample.  The claim says every protocol function fails fast
with a validation error on parameters outside their documented ranges.  At
the concrete invalid input channel_loss = -1/2, depolarization = 3,
b92_protocol completes normally and returns a result. -/
theorem b92_accepts_invalid_probability :
    (b92_protocol 2 ⟨-1/2, 3, 0, 0⟩ b92ZeroDraws).isOk = true := rfl

/-- C5 as amended: the protocol functions perform no parameter validation at
all.  Any parameter record is accepted and the run completes normally (for a
nonzero signal count); a probability parameter at or above 1, such as a
depolarization of 2, simply makes its event fire on every valid draw instead
of being rejected or clamped. -/
theorem protocols_skip_parameter_validation (p : B92Params) (d : B92Draws)
    (hd : B92ValidDraws d) (n : ℕ) (hn : n ≠ 0) (hdep : 1 ≤ p.depolarization) :
    (b92_protocol n p d).isOk = true ∧ ∀ i, d.depolCheck i < p.depolarization := by
  constructor
  · simp only [b92_protocol, if_neg hn]
    rfl
  · intro i
    exact lt_of_lt_of_le (hd i).2.2.2.1.2 hdep

/-- Witness for the amended C5 statement at a concrete invalid input. -/
theorem protocols_skip_parameter_validation_witness :
    (b92_protocol 1 ⟨0, 2, 0, 0⟩ b92ZeroDraws).isOk = true :=
  (protocols_skip_parameter_validation ⟨0, 2, 0, 0⟩ b92ZeroDraws b92ZeroDraws_valid 1
    (by norm_num) (by norm_num)).1

/-- C2.  The claim says each B92 signal is conclusive with probability 1/4 at
zero noise.  In the code, both prepared states produce a conclusive outcome
exactly when the outcome draw falls below 1/2 (the conclusive-0 and
conclusive-1 Born probabilities are 1/2 and 0 for |0>, and 0 and 1/2 for
|+>), so the per-signal conclusive probability is 1/2 and the key rate
converges to 0.5 - although the code's own theoretical expectation field,
reproduced in the second conjunct, documents 1/4. -/
theorem b92_conclusive_probability_half (d : B92Draws) (hd : B92ValidDraws d) (i : ℕ) :
    ((b92_signal b92ZeroParams d i).conclusive = true ↔ d.outcome i < 1 / 2) ∧
    b92_expected_key_rate b92ZeroParams = 1 / 4 := by
  refine ⟨?_, by norm_num [b92_expected_key_rate, b92ZeroParams]⟩
  have hl : ¬ d.lossCheck i < (0 : ℚ) := not_lt.mpr (hd i).1.1
  show (b92_signal ⟨0, 0, 0, 0⟩ d i).conclusive = true ↔ d.outcome i < 1 / 2
  rw [b92_signal_zero_noise 0 d hd i, if_neg hl]
  by_cases ho : d.outcome i < 1 / 2
  · rw [if_pos ho]
    simpa using ho
  · rw [if_neg ho]
    simpa using ho

/-- Witness for C2 at the concrete all-zero draw record. -/
theorem b92_conclusive_probability_half_witness :
    ((b92_signal b92ZeroParams b92ZeroDraws 0).conclusive = true ↔
      b92ZeroDraws.outcome 0 < 1 / 2) :=
  (b92_conclusive_probability_half b92ZeroDraws b92ZeroDraws_valid 0).1

/-- C8.  With depolarization, eavesdropping rate and dark counts all zero and
an arbitrary channel loss, a conclusive B92 measurement always reports
Alice's own bit (a prepared |0> can never click conclusive-1, and a prepared
|+> can never click conclusive-0), so the sifted keys agree pointwise and the
QBER is exactly 0 for every draw record and signal count. -/
theorem b92_noiseless_conclusive_matches_alice (n : ℕ) (loss : ℚ) (d : B92Draws)
    (hd : B92ValidDraws d) :
    (∀ i, (b92_signal ⟨loss, 0, 0, 0⟩ d i).conclusive = true →
      (b92_signal ⟨loss, 0, 0, 0⟩ d i).bit = ((d.aliceBit i : ℕ) : ℤ)) ∧
    (b92_run n ⟨loss, 0, 0, 0⟩ d).qber = 0 := by
  have hpt : ∀ i, (b92_signal ⟨loss, 0, 0, 0⟩ d i).conclusive = true →
      (b92_signal ⟨loss, 0, 0, 0⟩ d i).bit = ((d.aliceBit i : ℕ) : ℤ) := by
    intro i hc
    rw [b92_signal_zero_noise loss d hd i] at hc ⊢
    by_cases hl : d.lossCheck i < loss
    · rw [if_pos hl] at hc
      simp at hc
    · rw [if_neg hl] at hc ⊢
      by_cases ho : d.outcome i < 1 / 2
      · rw [if_pos ho]
      · rw [if_neg ho] at hc
        simp at hc
  refine ⟨hpt, ?_⟩
  have hmaps : mismatch_count
      ((b92_conclusive_indices ⟨loss, 0, 0, 0⟩ d n).map fun i => ((d.aliceBit i : ℕ) : ℤ))
      ((b92_conclusive_indices ⟨loss, 0, 0, 0⟩ d n).map
        fun i => (b92_signal ⟨loss, 0, 0, 0⟩ d i).bit) = 0 := by
    apply mismatch_count_map_eq_zero
    intro i hi
    exact (hpt i (List.mem_filter.mp hi).2).symm
  simp only [b92_run, hmaps]
  split_ifs <;> simp

/-- Witness for C8 at the concrete all-zero draw record. -/
theorem b92_noiseless_conclusive_matches_alice_witness :
    (b92_run 2 ⟨0, 0, 0, 0⟩ b92ZeroDraws).qber = 0 :=
  (b92_noiseless_conclusive_matches_alice 2 0 b92ZeroDraws b92ZeroDraws_valid).2

/-- C6.  In the simulated BB84 path with zero depolarization, phase damping
and amplitude damping and zero photon loss (fiber length 0): no photon is
lost, the raw bit and basis sequences have length n, the sifted keys agree
exactly (QBER 0), and the sifted length equals the number of positions with
matching bases - for every draw record, hence for every seed. -/
theorem bb84_noiseless_perfect_agreement (n : ℕ) (d : BB84Draws)
    (hd : BB84ValidDraws d) :
    bb84_detected_indices bb84NoiselessParams d n = List.range n ∧
    (simulate_bb84 n bb84NoiselessParams d).alice_bits.length = n ∧
    (simulate_bb84 n bb84NoiselessParams d).alice_bases.length = n ∧
    (simulate_bb84 n bb84NoiselessParams d).bob_bases.length = n ∧
    (simulate_bb84 n bb84NoiselessParams d).alice_key =
      (simulate_bb84 n bb84NoiselessParams d).bob_key ∧
    (simulate_bb84 n bb84NoiselessParams d).qber = 0 ∧
    (simulate_bb84 n bb84NoiselessParams d).alice_key.length =
      ((List.range n).filter fun i => decide (d.aliceBasis i = d.bobBasis i)).length := by
  have hcomb : combined_amplitude_damping bb84NoiselessParams = 0 := by
    norm_num [combined_amplitude_damping, bb84NoiselessParams]
  have hdet : bb84_detected_indices bb84NoiselessParams d n = List.range n := by
    apply List.filter_eq_self.mpr
    intro i _
    simp [hcomb, not_lt.mpr (hd i).1.1]
  have hbob : ∀ i ∈ bb84_sift_indices bb84NoiselessParams d n,
      (d.aliceBit i : ℕ) = bb84_bob_result bb84NoiselessParams d i := by
    intro i hi
    have hmatch : d.aliceBasis i = d.bobBasis i := by
      have := (List.mem_filter.mp hi).2
      simpa using this
    have h1 : ¬ d.depolDraw i < (0 : ℚ) := not_lt.mpr (hd i).2.1.1
    have h2 : ¬ d.phaseDraw i < (0 : ℚ) := not_lt.mpr (hd i).2.2.1
    simp [bb84_bob_result, bb84NoiselessParams, h1, h2, hmatch]
  have hkeys : (simulate_bb84 n bb84NoiselessParams d).alice_key =
      (simulate_bb84 n bb84NoiselessParams d).bob_key := by
    simp only [simulate_bb84]
    exact List.map_congr_left hbob
  refine ⟨hdet, by simp [simulate_bb84], by simp [simulate_bb84], by simp [simulate_bb84],
    hkeys, ?_, ?_⟩
  · simp only [simulate_bb84] at hkeys ⊢
    rw [hkeys, mismatch_count_self]
    split_ifs <;> simp
  · simp only [simulate_bb84, List.length_map, bb84_sift_indices, hdet]

/-- Witness for C6 at a concrete mixed-basis draw record with four signals. -/
theorem bb84_noiseless_perfect_agreement_witness :
    (simulate_bb84 4 bb84NoiselessParams bb84MixedDraws).qber = 0 ∧
    (simulate_bb84 4 bb84NoiselessParams bb84MixedDraws).alice_key.length =
      ((List.range 4).filter fun i =>
        decide (bb84MixedDraws.aliceBasis i = bb84MixedDraws.bobBasis i)).length :=
  ⟨(bb84_noiseless_perfect_agreement 4 bb84MixedDraws bb84MixedDraws_valid).2.2.2.2.2.1,
   (bb84_noiseless_perfect_agreement 4 bb84MixedDraws bb84MixedDraws_valid).2.2.2.2.2.2⟩

/-- C7.  For all three protocols and all parameters, both sifted keys are
comprehensions over one shared index list (identical indices of origin), so
they have equal length, bounded by the signal/pair count; the sifted length
is zero when the BB84 combined amplitude damping reaches 1 or the B92
channel loss is 1. -/
theorem sifted_key_pair_invariants
    (nB : ℕ) (pB : BB84Params) (dB : BB84Draws) (hdB : BB84ValidDraws dB)
    (nS : ℕ) (pS : B92Params) (dS : B92Draws) (hdS : B92ValidDraws dS)
    (nE : ℕ) (pE : E91Params) (dE : E91Draws) (bsE : BellState) :
    (simulate_bb84 nB pB dB).alice_key =
      (bb84_sift_indices pB dB nB).map (fun i => (dB.aliceBit i : ℕ)) ∧
    (simulate_bb84 nB pB dB).bob_key =
      (bb84_sift_indices pB dB nB).map (bb84_bob_result pB dB) ∧
    (simulate_bb84 nB pB dB).alice_key.length = (simulate_bb84 nB pB dB).bob_key.length ∧
    (simulate_bb84 nB pB dB).alice_key.length ≤ nB ∧
    (1 ≤ combined_amplitude_damping pB → (simulate_bb84 nB pB dB).alice_key = []) ∧
    (b92_run nS pS dS).sifted_key_alice =
      (b92_conclusive_indices pS dS nS).map (fun i => ((dS.aliceBit i : ℕ) : ℤ)) ∧
    (b92_run nS pS dS).sifted_key_bob =
      (b92_conclusive_indices pS dS nS).map (fun i => (b92_signal pS dS i).bit) ∧
    (b92_run nS pS dS).sifted_key_alice.length = (b92_run nS pS dS).sifted_key_bob.length ∧
    (b92_run nS pS dS).sifted_key_alice.length ≤ nS ∧
    (pS.channel_loss = 1 → (b92_run nS pS dS).sifted_key_alice = []) ∧
    (e91_protocol nE pE dE bsE).alice_sifted_key =
      (e91_key_gen_indices dE nE).map (fun i => (e91_outcome pE dE bsE i).1) ∧
    (e91_protocol nE pE dE bsE).bob_sifted_key =
      (e91_key_gen_indices dE nE).map (fun i => (e91_outcome pE dE bsE i).2) ∧
    (e91_protocol nE pE dE bsE).alice_sifted_key.length =
      (e91_protocol nE pE dE bsE).bob_sifted_key.length ∧
    (e91_protocol nE pE dE bsE).alice_sifted_key.length ≤ nE := by
  have hsiftB : (bb84_sift_indices pB dB nB).length ≤ nB :=
    calc (bb84_sift_indices pB dB nB).length
        ≤ (bb84_detected_indices pB dB nB).length := List.length_filter_le _ _
      _ ≤ (List.range nB).length := List.length_filter_le _ _
      _ = nB := List.length_range nB
  have hlossB : 1 ≤ combined_amplitude_damping pB →
      (simulate_bb84 nB pB dB).alice_key = [] := by
    intro hcomb
    have hdet : bb84_detected_indices pB dB nB = [] := by
      apply List.filter_eq_nil_iff.mpr
      intro i _
      have : dB.lossDraw i < combined_amplitude_damping pB :=
        lt_of_lt_of_le (hdB i).1.2 hcomb
      simp [this]
    simp [simulate_bb84, bb84_sift_indices, hdet]
  have hsiftS : (b92_conclusive_indices pS dS nS).length ≤ nS :=
    calc (b92_conclusive_indices pS dS nS).length
        ≤ (List.range nS).length := List.length_filter_le _ _
      _ = nS := List.length_range nS
  have hlossS : pS.channel_loss = 1 → (b92_run nS pS dS).sifted_key_alice = [] := by
    intro hloss
    have hconc : b92_conclusive_indices pS dS nS = [] := by
      apply List.filter_eq_nil_iff.mpr
      intro i _
      have hl : dS.lossCheck i < pS.channel_loss := by
        rw [hloss]; exact (hdS i).1.2
      simp [b92_signal, hl]
    simp [b92_run, hconc]
  have hsiftE : (e91_key_gen_indices dE nE).length ≤ nE :=
    calc (e91_key_gen_indices dE nE).length
        ≤ (List.range nE).length := List.length_filter_le _ _
      _ = nE := List.length_range nE
  exact ⟨rfl, rfl, by simp [simulate_bb84], by simpa [simulate_bb84] using hsiftB, hlossB,
    rfl, rfl, by simp [b92_run], by simpa [b92_run] using hsiftS, hlossS,
    rfl, rfl, by simp [e91_protocol], by simpa [e91_protocol] using hsiftE⟩

/-- Witness for C7: forced photon loss empties the BB84 key, forced channel
loss empties the B92 key, and the E91 sifted keys have equal length, at
concrete inputs. -/
theorem sifted_key_pair_invariants_witness :
    (simulate_bb84 3 bb84LossyParams bb84ZeroDraws).alice_key = [] ∧
    (b92_run 2 b92LossyParams b92ZeroDraws).sifted_key_alice = [] ∧
    (e91_protocol 2 e91ZeroParams e91ZeroDraws BellState.psi_minus).alice_sifted_key.length =
      (e91_protocol 2 e91ZeroParams e91ZeroDraws BellState.psi_minus).bob_sifted_key.length := by
  have h := sifted_key_pair_invariants 3 bb84LossyParams bb84ZeroDraws bb84ZeroDraws_valid
    2 b92LossyParams b92ZeroDraws b92ZeroDraws_valid 2 e91ZeroParams e91ZeroDraws
    BellState.psi_minus
  refine ⟨h.2.2.2.2.1 ?_, h.2.2.2.2.2.2.2.2.2.1 ?_, h.2.2.2.2.2.2.2.2.2.2.2.2.1⟩
  · norm_num [combined_amplitude_damping, bb84LossyParams]
  · norm_num [b92LossyParams]

/-- Matching bases give p_same = 0: the anti-correlation probability is 1 for
every depolarization value. -/
lemma p_same_self (basis : Fin 3) : p_same basis basis = 0 := by
  simp [p_same]

lemma p_same_zero_one : p_same 0 1 = 1 := by decide

lemma p_same_one_zero : p_same 1 0 = 1 := by decide

/-- With all three noise parameters at zero, the accurate E91 outcome pair
reduces to the bare correlation draw of measure_in_basis. -/
lemma e91_outcome_zero_noise (d : E91Draws) (hd : E91ValidDraws d) (bs : BellState)
    (i : ℕ) :
    e91_outcome e91ZeroParams d bs i =
      (if d.corrDraw i < p_same (d.aliceBasis i) (d.bobBasis i)
       then (((d.aliceBit i : ℕ)), ((d.aliceBit i : ℕ)))
       else (((d.aliceBit i : ℕ)), 1 - ((d.aliceBit i : ℕ)))) := by
  obtain ⟨heav, hcorr, hdA, hdB⟩ := hd i
  have h1 : ¬ d.eavesCheck i < (0 : ℚ) := not_lt.mpr heav.1
  have h2 : ¬ d.darkA i < (0 : ℚ) := not_lt.mpr hdA.1
  have h3 : ¬ d.darkB i < (0 : ℚ) := not_lt.mpr hdB.1
  by_cases hc : d.corrDraw i < p_same (d.aliceBasis i) (d.bobBasis i)
  · simp [e91_outcome, e91_pair, e91ZeroParams, measure_in_basis, h1, h2, h3, hc]
  · simp [e91_outcome, e91_pair, e91ZeroParams, measure_in_basis, h1, h2, h3, hc]

/-- Every element of a CHSH product list is 1 or -1. -/
lemma chsh_products_pm (d : E91Draws) (out : ℕ → ℕ × ℕ) (n : ℕ) (ka kb : Fin 3) :
    ∀ x ∈ chsh_products d out n ka kb, x = 1 ∨ x = -1 := by
  intro x hx
  simp only [chsh_products, List.mem_map] at hx
  obtain ⟨i, _, rfl⟩ := hx
  rcases pm_eq_one_or_neg_one (out i).1 with h | h <;>
    rcases pm_eq_one_or_neg_one (out i).2 with h' | h' <;> simp [h, h']

/-- At zero noise, every product collected for a basis pair with p_same = 1
(the pairs at 90 degrees, bases (0,1) and (1,0)) equals +1: Bob's outcome
always equals Alice's there. -/
lemma chsh_products_zero_noise_unit (d : E91Draws) (hd : E91ValidDraws d)
    (bs : BellState) (n : ℕ) (ka kb : Fin 3) (hp : p_same ka kb = 1) :
    ∀ x ∈ chsh_products d (e91_outcome e91ZeroParams d bs) n ka kb, x = (1 : ℤ) := by
  intro x hx
  simp only [chsh_products, List.mem_map, List.mem_filter] at hx
  obtain ⟨i, ⟨hmem, hbases⟩, rfl⟩ := hx
  have hb := of_decide_eq_true hbases
  rw [e91_outcome_zero_noise d hd bs i]
  have hc : d.corrDraw i < p_same (d.aliceBasis i) (d.bobBasis i) := by
    rw [hb.1, hb.2, hp]
    exact (hd i).2.1.2
  rw [if_pos hc]
  exact pm_mul_self _

/-- At zero noise, the matching-basis subset is perfectly anti-correlated, so
the corrected key agrees with Alice's and the QBER of the accurate E91
protocol is exactly 0. -/
lemma e91_zero_noise_qber (n : ℕ) (d : E91Draws) (hd : E91ValidDraws d)
    (bs : BellState) : (e91_protocol n e91ZeroParams d bs).qber = 0 := by
  have hmaps : mismatch_count
      ((e91_key_gen_indices d n).map fun i => (e91_outcome e91ZeroParams d bs i).1)
      (((e91_key_gen_indices d n).map fun i => (e91_outcome e91ZeroParams d bs i).2).map
        fun bit => 1 - bit) = 0 := by
    rw [List.map_map]
    apply mismatch_count_map_eq_zero
    intro i hi
    have hmatch : d.aliceBasis i = d.bobBasis i := by
      have := (List.mem_filter.mp hi).2
      simpa using this
    have hnc : ¬ d.corrDraw i < p_same (d.aliceBasis i) (d.bobBasis i) := by
      rw [hmatch, p_same_self]
      exact not_lt.mpr (hd i).2.1.1
    have hb : (d.aliceBit i : ℕ) ≤ 1 := by
      have := (d.aliceBit i).isLt
      omega
    simp only [Function.comp_apply, e91_outcome_zero_noise d hd bs i, if_neg hnc]
    omega
  simp only [e91_protocol, hmaps]
  split_ifs <;> simp

/-- C3.  The claim says the accurate E91 protocol at zero noise converges to
S = 2 sqrt 2 with bell_violated true.  In the code, Bob's outcome always
equals Alice's on the basis pairs (0,1) and (1,0) (p_same there is
sin^2(pi/2) = 1), so the CHSH terms E(0,90) and E(90,0) are both +1 whenever
populated and cancel in S = E_02 - E_01 + E_12 + E_10; S collapses to
E_02 + E_12, a sum of two means of plus/minus-one lists, so |S| <= 2 and
bell_violated is false for every draw record.  Only the QBER part of the
claim holds (first conjunct). -/
theorem e91_zero_noise_never_violates_chsh (n : ℕ) (d : E91Draws)
    (hd : E91ValidDraws d)
    (h01 : chsh_products d (e91_outcome e91ZeroParams d BellState.psi_minus) n 0 1 ≠ [])
    (h10 : chsh_products d (e91_outcome e91ZeroParams d BellState.psi_minus) n 1 0 ≠ []) :
    (e91_protocol n e91ZeroParams d BellState.psi_minus).qber = 0 ∧
    (e91_protocol n e91ZeroParams d BellState.psi_minus).bell_violated = false := by
  refine ⟨e91_zero_noise_qber n d hd _, ?_⟩
  have c01 : correlation
      (chsh_products d (e91_outcome e91ZeroParams d BellState.psi_minus) n 0 1) = 1 := by
    have := correlation_eq_of_all_eq _ 1 h01
      (chsh_products_zero_noise_unit d hd BellState.psi_minus n 0 1 p_same_zero_one)
    simpa using this
  have c10 : correlation
      (chsh_products d (e91_outcome e91ZeroParams d BellState.psi_minus) n 1 0) = 1 := by
    have := correlation_eq_of_all_eq _ 1 h10
      (chsh_products_zero_noise_unit d hd BellState.psi_minus n 1 0 p_same_one_zero)
    simpa using this
  have b02 := abs_correlation_le_one _
    (chsh_products_pm d (e91_outcome e91ZeroParams d BellState.psi_minus) n 0 2)
  have b12 := abs_correlation_le_one _
    (chsh_products_pm d (e91_outcome e91ZeroParams d BellState.psi_minus) n 1 2)
  have habs : |calculate_chsh_s_value d (e91_outcome e91ZeroParams d BellState.psi_minus) n|
      ≤ 2 := by
    rw [calculate_chsh_s_value, c01, c10]
    have hsum : correlation
        (chsh_products d (e91_outcome e91ZeroParams d BellState.psi_minus) n 0 2) - 1 +
        correlation
        (chsh_products d (e91_outcome e91ZeroParams d BellState.psi_minus) n 1 2) + 1 =
        correlation
        (chsh_products d (e91_outcome e91ZeroParams d BellState.psi_minus) n 0 2) +
        correlation
        (chsh_products d (e91_outcome e91ZeroParams d BellState.psi_minus) n 1 2) := by
      ring
    rw [hsum]
    calc |correlation _ + correlation _| ≤ |correlation _| + |correlation _| := abs_add _ _
      _ ≤ 1 + 1 := add_le_add b02 b12
      _ = 2 := by norm_num
  simp only [e91_protocol]
  rw [if_neg (not_lt.mpr habs)]

/-- Witness for C3: two pairs with bases (0,1) and (1,0), all draws zero. -/
theorem e91_zero_noise_never_violates_chsh_witness :
    (e91_protocol 2 e91ZeroParams e91MixedDraws BellState.psi_minus).qber = 0 ∧
    (e91_protocol 2 e91ZeroParams e91MixedDraws BellState.psi_minus).bell_violated = false :=
  e91_zero_noise_never_violates_chsh 2 e91MixedDraws e91MixedDraws_valid
    (by decide) (by decide)

/-- C9.  In the basic E91 implementation served by /api/e91, Bob's outcome is
always 1 - alice_bit, so the corrected key equals Alice's sifted key and the
QBER is 0 for every draw record; every populated CHSH term has mean -1, and
when all four terms E_01, E_02, E_11, E_12 are populated the CHSH value is
exactly -2 and the Bell inequality is reported as not violated. -/
theorem e91_basic_perfect_anticorrelation (n : ℕ) (d : E91BasicDraws) :
    (e91_basic_protocol n d).bob_outcomes =
      (e91_basic_protocol n d).alice_outcomes.map (fun bit => 1 - bit) ∧
    (e91_basic_protocol n d).bob_corrected_key =
      (e91_basic_protocol n d).alice_sifted_key ∧
    (e91_basic_protocol n d).qber = 0 ∧
    (∀ ka kb : Fin 3, e91_basic_chsh_list d n ka kb ≠ [] →
      correlation (e91_basic_chsh_list d n ka kb) = -1) ∧
    (e91_basic_chsh_list d n 0 1 ≠ [] → e91_basic_chsh_list d n 0 2 ≠ [] →
      e91_basic_chsh_list d n 1 1 ≠ [] → e91_basic_chsh_list d n 1 2 ≠ [] →
      (e91_basic_protocol n d).chsh_value = -2 ∧
      (e91_basic_protocol n d).bell_violated = false) := by
  have hbit : ∀ i, (d.aliceBit i : ℕ) ≤ 1 := by
    intro i
    have := (d.aliceBit i).isLt
    omega
  have hterm : ∀ ka kb : Fin 3, ∀ x ∈ e91_basic_chsh_list d n ka kb, x = (-1 : ℤ) := by
    intro ka kb x hx
    simp only [e91_basic_chsh_list, List.mem_map] at hx
    obtain ⟨i, _, rfl⟩ := hx
    simpa [e91_basic_outcome] using pm_mul_flip _ (hbit i)
  have hcorr : ∀ ka kb : Fin 3, e91_basic_chsh_list d n ka kb ≠ [] →
      correlation (e91_basic_chsh_list d n ka kb) = -1 := by
    intro ka kb hne
    have := correlation_eq_of_all_eq _ (-1) hne (hterm ka kb)
    simpa using this
  refine ⟨?_, ?_, ?_, hcorr, ?_⟩
  · simp only [e91_basic_protocol, List.map_map]
    rfl
  · simp only [e91_basic_protocol, List.map_map]
    apply List.map_congr_left
    intro i _
    simp only [Function.comp_apply, e91_basic_outcome]
    have := hbit i
    omega
  · have hmaps : mismatch_count
        ((e91_basic_sifted_indices d n).map fun i => (e91_basic_outcome d i).1)
        (((e91_basic_sifted_indices d n).map fun i => (e91_basic_outcome d i).2).map
          fun bit => 1 - bit) = 0 := by
      rw [List.map_map]
      apply mismatch_count_map_eq_zero
      intro i _
      simp only [Function.comp_apply, e91_basic_outcome]
      have := hbit i
      omega
    simp only [e91_basic_protocol, hmaps]
    split_ifs <;> simp
  · intro h01 h02 h11 h12
    have hv : e91_basic_chsh_value d n = -2 := by
      rw [e91_basic_chsh_value, hcorr 0 1 h01, hcorr 0 2 h02, hcorr 1 1 h11,
        hcorr 1 2 h12]
      norm_num
    constructor
    · simpa [e91_basic_protocol] using hv
    · simp only [e91_basic_protocol]
      rw [hv]
      norm_num

/-- Witness for C9: four pairs covering all four CHSH basis pairs. -/
theorem e91_basic_perfect_anticorrelation_witness :
    (e91_basic_protocol 4 e91BasicMixedDraws).chsh_value = -2 ∧
    (e91_basic_protocol 4 e91BasicMixedDraws).bell_violated = false :=
  (e91_basic_perfect_anticorrelation 4 e91BasicMixedDraws).2.2.2.2
    (by decide) (by decide) (by decide) (by decide)
